/-
Verification of the Simple-Blockchain-App repository (src/main.cpp).

The C++ program is embedded shallowly:
  * `std::string` is modelled as `List Int` (the sequence of `char` values
    as they appear after the implicit `char → int` promotions; every
    operation used by the program — indexing, length, concatenation —
    is total on this representation);
  * the 32-bit signed `int` accumulator of `simpleHash` is modelled as an
    `Int` kept in the signed 32-bit range by `wrap32` (two's-complement
    wraparound, applied at every arithmetic step exactly where the C++
    `int` operations wrap);
  * the C++ arithmetic right shift `hash >> k` on a (possibly negative)
    `int` is floor division `Int.fdiv hash (2 ^ k)`, and `x & 0xF` on a
    two's-complement value is `Int.emod x 16`;
  * the interactive loop of `main` is a fuel-indexed recursion
    (`chainLoop`); fuel `MAX_BLOCKS` is enough for every run, which is
    proved (`chainLoop_stable`) rather than assumed.  Standard input is
    modelled as two streams: `dataF n` is the n-th line read by
    `getline`, `choiceF n` the n-th character read by `cin >> choice`
    (the loop body performs exactly one read of each kind per
    iteration, so both streams are consumed positionally);
  * the console output of the loop is recorded as a trace of events:
    the data prompt (with the number the program prints), the append of
    a block, and the continuation prompt.
-/
import Mathlib

namespace SimpleBlockchainApp

/-- A C++ `std::string`: the list of its character values. -/
abbrev CppString := List Int

/-- Character values of an ASCII Lean string literal (used to write down
concrete `CppString` values such as `"Genesis Block"`). -/
def ascii (s : String) : CppString := s.toList.map (fun c => (c.toNat : Int))

/-- Two's-complement wraparound into the signed 32-bit range
`[-2147483648, 2147483647]` — the overflow behaviour of the C++ `int`
arithmetic in `simpleHash`. -/
def wrap32 (n : Int) : Int := (n + 2147483648) % 4294967296 - 2147483648

/-- The accumulation loop of `simpleHash` (src/main.cpp lines 66-74):
`hash += (int)input[i] * (i + 1)`, with `int` wraparound on the product
and on the sum.  `pos` is the 1-based position `i + 1` of the next
character. -/
def hashAccFrom (h : Int) (pos : Nat) : CppString → Int
  | [] => h
  | c :: rest => hashAccFrom (wrap32 (h + wrap32 (c * (pos : Int)))) (pos + 1) rest

/-- The accumulator value computed by `simpleHash` (initial `hash = 0`,
first character weighted by 1). -/
def hashAcc (input : CppString) : Int := hashAccFrom 0 1 input

/-- One hex digit of the accumulator: `(hash >> (i * 4)) & 0xF`
(src/main.cpp line 83), with the arithmetic shift as floor division and
the mask as Euclidean remainder. -/
def nibbleVal (h : Int) (i : Nat) : Int := Int.fdiv h (2 ^ (4 * i)) % 16

/-- `value < 10 ? '0' + value : 'A' + (value - 10)` (src/main.cpp line 87),
as a character value. -/
def hexCharCode (v : Int) : Int := if v < 10 then 48 + v else 65 + (v - 10)

/-- `simpleHash` (src/main.cpp lines 63-95): the 8-character digest,
least-significant nibble at position 0. -/
def simpleHash (input : CppString) : CppString :=
  (List.range 8).map (fun i => hexCharCode (nibbleVal (hashAcc input) i))

/-- The `Block` struct (src/main.cpp lines 31-36). -/
structure Block where
  data : CppString
  prevHash : CppString
  hash : CppString
deriving DecidableEq

/-- `createBlock` (src/main.cpp lines 107-118). -/
def createBlock (data prevHash : CppString) : Block :=
  { data := data, prevHash := prevHash, hash := simpleHash (data ++ prevHash) }

/-- `MAX_BLOCKS` (src/main.cpp line 21). -/
def MAX_BLOCKS : Nat := 10

/-- The character value of `'y'`, the only affirmative continuation token. -/
def yCode : Int := 121

/-- `blockchain[blockCount - 1].hash`: the digest of the last block of the
chain (the chain is never empty when this is read; the `[]` branch is
unreachable from the initial state). -/
def lastHash (chain : List Block) : CppString :=
  match chain.getLast? with
  | some b => b.hash
  | none => []

/-- The genesis block: `createBlock("Genesis Block", "00000000")`
(src/main.cpp line 136). -/
def genesisBlock : Block := createBlock (ascii "Genesis Block") (ascii "00000000")

/-- Observable events of one run of the interactive loop: the data prompt
(together with the number `blockCount` that the program interpolates into
it), the append of a freshly created block, and the continuation prompt. -/
inductive Ev where
  | dataPrompt (n : Nat)
  | append (b : Block)
  | contPrompt
deriving DecidableEq

/-- The console text of the data prompt:
`cout << "\nEnter data for block " << blockCount << ": "`
(src/main.cpp line 145). -/
def dataPromptText (n : Nat) : String :=
  "\nEnter data for block " ++ Nat.repr n ++ ": "

/-- The console text of the continuation prompt (src/main.cpp line 154). -/
def contPromptText : String := "Add another block? (y/n): "

/-- The interactive loop of `main` (src/main.cpp lines 140-157).
`fuel` bounds the number of remaining iterations (the loop needs at most
`MAX_BLOCKS` of them, proved below); `k` is the number of completed
iterations, i.e. the position in both input streams; `chain` is the
blockchain built so far; `choice` the current value of the `choice`
variable.  Returns the final chain and the event trace. -/
def chainLoop (dataF : Nat → CppString) (choiceF : Nat → Int) :
    Nat → Nat → List Block → Int → List Block × List Ev
  | 0, _, chain, _ => (chain, [])
  | fuel + 1, k, chain, choice =>
    if choice = yCode ∧ chain.length < MAX_BLOCKS then
      let nb := createBlock (dataF k) (lastHash chain)
      let rest := chainLoop dataF choiceF fuel (k + 1) (chain ++ [nb]) (choiceF k)
      (rest.1, Ev.dataPrompt chain.length :: Ev.append nb :: Ev.contPrompt :: rest.2)
    else (chain, [])

/-- A full run of `main`'s interactive phase: genesis already appended,
`choice = 'y'`, no iteration performed yet. -/
def buildRun (dataF : Nat → CppString) (choiceF : Nat → Int) : List Block × List Ev :=
  chainLoop dataF choiceF MAX_BLOCKS 0 [genesisBlock] yCode

/-- The chain produced by a run of the interactive loop. -/
def buildChain (dataF : Nat → CppString) (choiceF : Nat → Int) : List Block :=
  (buildRun dataF choiceF).1

/-- The event trace produced by a run of the interactive loop. -/
def buildTrace (dataF : Nat → CppString) (choiceF : Nat → Int) : List Ev :=
  (buildRun dataF choiceF).2

/-- The numbers interpolated into the data prompts of a trace, in order. -/
def promptNums (tr : List Ev) : List Nat :=
  tr.filterMap (fun e =>
    match e with
    | Ev.dataPrompt n => some n
    | _ => none)

/-- The linkage relation between consecutive blocks. -/
def linkedTo (a b : Block) : Prop := b.prevHash = a.hash

/-- `[s, s+1, ..., s+n-1]`: the expected data-prompt numbering. -/
def countUp (s : Nat) : Nat → List Nat
  | 0 => []
  | n + 1 => s :: countUp (s + 1) n

/-- A character value that is one of `'0'`-`'9'` or `'A'`-`'F'`. -/
def isHexDigitCode (c : Int) : Bool :=
  (decide (48 ≤ c) && decide (c ≤ 57)) || (decide (65 ≤ c) && decide (c ≤ 70))

/-- Modelled from the spec (§4.1 step 2): the accumulator described as the
plain sum over 1-indexed positions of `code(char_i) * i`, with a single
32-bit signed wraparound (`pos` is the position of the first character of
the remaining input). -/
def weightedSum (pos : Nat) : CppString → Int
  | [] => 0
  | c :: rest => c * (pos : Int) + weightedSum (pos + 1) rest

/-- Modelled from the spec (§4.1): the Hasher as the spec words it — the
32-bit wrapped weighted sum, rendered least-significant nibble first with
`(accumulator >> (i*4)) & 0xF`, digits `0`-`9` then `A`-`F`. -/
def hasherSpec (input : CppString) : CppString :=
  (List.range 8).map (fun i =>
    let v := Int.fdiv (wrap32 (weightedSum 1 input)) (2 ^ (4 * i)) % 16
    if v < 10 then 48 + v else 65 + (v - 10))

/-- Unfolding of `chainLoop` at fuel 0. -/
theorem chainLoop_zero (dataF : Nat → CppString) (choiceF : Nat → Int)
    (k : Nat) (chain : List Block) (choice : Int) :
    chainLoop dataF choiceF 0 k chain choice = (chain, []) := rfl

/-- Unfolding of `chainLoop` at positive fuel: one iteration of the
`while (choice == 'y' && blockCount < MAX_BLOCKS)` loop. -/
theorem chainLoop_succ (dataF : Nat → CppString) (choiceF : Nat → Int)
    (fuel k : Nat) (chain : List Block) (choice : Int) :
    chainLoop dataF choiceF (fuel + 1) k chain choice =
      if choice = yCode ∧ chain.length < MAX_BLOCKS then
        ((chainLoop dataF choiceF fuel (k + 1)
            (chain ++ [createBlock (dataF k) (lastHash chain)]) (choiceF k)).1,
          Ev.dataPrompt chain.length
            :: Ev.append (createBlock (dataF k) (lastHash chain))
            :: Ev.contPrompt
            :: (chainLoop dataF choiceF fuel (k + 1)
                  (chain ++ [createBlock (dataF k) (lastHash chain)]) (choiceF k)).2)
      else (chain, []) := rfl

/-- The loop only appends: its final chain extends the starting chain. -/
theorem chainLoop_extends (dataF : Nat → CppString) (choiceF : Nat → Int) :
    ∀ (fuel k : Nat) (chain : List Block) (choice : Int),
      ∃ s, (chainLoop dataF choiceF fuel k chain choice).1 = chain ++ s := by
  intro fuel
  induction fuel with
  | zero =>
    intro k chain choice
    exact ⟨[], by rw [chainLoop_zero]; simp⟩
  | succ fuel ih =>
    intro k chain choice
    rw [chainLoop_succ]
    by_cases hg : choice = yCode ∧ chain.length < MAX_BLOCKS
    · rw [if_pos hg]
      obtain ⟨s, hs⟩ :=
        ih (k + 1) (chain ++ [createBlock (dataF k) (lastHash chain)]) (choiceF k)
      exact ⟨createBlock (dataF k) (lastHash chain) :: s, by simp [hs]⟩
    · rw [if_neg hg]
      exact ⟨[], by simp⟩

/-- The guard `blockCount < MAX_BLOCKS` keeps the chain within capacity. -/
theorem chainLoop_length_le (dataF : Nat → CppString) (choiceF : Nat → Int) :
    ∀ (fuel k : Nat) (chain : List Block) (choice : Int),
      chain.length ≤ MAX_BLOCKS →
      (chainLoop dataF choiceF fuel k chain choice).1.length ≤ MAX_BLOCKS := by
  intro fuel
  induction fuel with
  | zero =>
    intro k chain choice h
    rw [chainLoop_zero]; exact h
  | succ fuel ih =>
    intro k chain choice h
    rw [chainLoop_succ]
    by_cases hg : choice = yCode ∧ chain.length < MAX_BLOCKS
    · rw [if_pos hg]
      apply ih
      obtain ⟨-, h2⟩ := hg
      simp only [List.length_append, List.length_cons, List.length_nil]
      omega
    · rw [if_neg hg]; exact h

/-- Every block appended by the loop is linked to the block that was last
at the moment of its creation, so the linkage relation is preserved. -/
theorem chainLoop_linked (dataF : Nat → CppString) (choiceF : Nat → Int) :
    ∀ (fuel k : Nat) (chain : List Block) (choice : Int),
      List.Chain' linkedTo chain →
      List.Chain' linkedTo (chainLoop dataF choiceF fuel k chain choice).1 := by
  intro fuel
  induction fuel with
  | zero =>
    intro k chain choice h
    rw [chainLoop_zero]; exact h
  | succ fuel ih =>
    intro k chain choice h
    rw [chainLoop_succ]
    by_cases hg : choice = yCode ∧ chain.length < MAX_BLOCKS
    · rw [if_pos hg]
      apply ih
      apply List.Chain'.append h (List.chain'_singleton _)
      intro x hx y hy
      rw [Option.mem_def] at hx
      simp only [List.head?_cons, Option.mem_def, Option.some.injEq] at hy
      subst hy
      show lastHash chain = x.hash
      simp [lastHash, hx]
    · rw [if_neg hg]; exact h

/-- Once the chain is at capacity the loop does nothing, whatever the fuel. -/
theorem chainLoop_full (dataF : Nat → CppString) (choiceF : Nat → Int)
    (fuel k : Nat) (chain : List Block) (choice : Int)
    (h : MAX_BLOCKS ≤ chain.length) :
    chainLoop dataF choiceF fuel k chain choice = (chain, []) := by
  cases fuel with
  | zero => rw [chainLoop_zero]
  | succ fuel =>
    rw [chainLoop_succ, if_neg]
    intro hg
    exact absurd hg.2 (by omega)

/-- Fuel `MAX_BLOCKS - chain.length` is always enough: adding more fuel
never changes the result, i.e. the loop genuinely stops by its guard. -/
theorem chainLoop_stable (dataF : Nat → CppString) (choiceF : Nat → Int) :
    ∀ (fuel extra k : Nat) (chain : List Block) (choice : Int),
      MAX_BLOCKS ≤ chain.length + fuel →
      chainLoop dataF choiceF (fuel + extra) k chain choice
        = chainLoop dataF choiceF fuel k chain choice := by
  intro fuel
  induction fuel with
  | zero =>
    intro extra k chain choice h
    rw [Nat.add_zero] at h
    rw [chainLoop_zero, Nat.zero_add]
    exact chainLoop_full dataF choiceF extra k chain choice h
  | succ fuel ih =>
    intro extra k chain choice h
    have e : fuel + 1 + extra = (fuel + extra) + 1 := by omega
    rw [e, chainLoop_succ, chainLoop_succ]
    by_cases hg : choice = yCode ∧ chain.length < MAX_BLOCKS
    · rw [if_pos hg, if_pos hg]
      rw [ih extra (k + 1) (chain ++ [createBlock (dataF k) (lastHash chain)]) (choiceF k)
        (by simp only [List.length_append, List.length_cons, List.length_nil]; omega)]
    · rw [if_neg hg, if_neg hg]

/-- The numbers printed in the data prompts are consecutive: they run from
the starting chain length up to the final chain length minus one (each
prompt shows `blockCount`, the number of blocks existing when it is
printed). -/
theorem chainLoop_promptNums (dataF : Nat → CppString) (choiceF : Nat → Int) :
    ∀ (fuel k : Nat) (chain : List Block) (choice : Int),
      promptNums (chainLoop dataF choiceF fuel k chain choice).2
        = countUp chain.length
            ((chainLoop dataF choiceF fuel k chain choice).1.length - chain.length) := by
  intro fuel
  induction fuel with
  | zero =>
    intro k chain choice
    rw [chainLoop_zero]
    simp [promptNums, countUp]
  | succ fuel ih =>
    intro k chain choice
    rw [chainLoop_succ]
    by_cases hg : choice = yCode ∧ chain.length < MAX_BLOCKS
    · rw [if_pos hg]
      dsimp only
      obtain ⟨s, hs⟩ :=
        chainLoop_extends dataF choiceF fuel (k + 1)
          (chain ++ [createBlock (dataF k) (lastHash chain)]) (choiceF k)
      have hlen : chain.length + 1
          ≤ (chainLoop dataF choiceF fuel (k + 1)
              (chain ++ [createBlock (dataF k) (lastHash chain)]) (choiceF k)).1.length := by
        rw [hs]
        simp only [List.length_append, List.length_cons, List.length_nil]
        omega
      have e : (chainLoop dataF choiceF fuel (k + 1)
              (chain ++ [createBlock (dataF k) (lastHash chain)]) (choiceF k)).1.length
            - chain.length
          = ((chainLoop dataF choiceF fuel (k + 1)
              (chain ++ [createBlock (dataF k) (lastHash chain)]) (choiceF k)).1.length
            - (chain.length + 1)) + 1 := by omega
      rw [e]
      simp only [promptNums, List.filterMap_cons, countUp]
      have hrec := ih (k + 1) (chain ++ [createBlock (dataF k) (lastHash chain)]) (choiceF k)
      simp only [promptNums, List.length_append, List.length_cons, List.length_nil,
        Nat.add_zero] at hrec
      rw [hrec]
    · rw [if_neg hg]
      simp [promptNums, countUp]

/-- Every number printed in a data prompt is below `MAX_BLOCKS` (the prompt
is only printed when the guard `blockCount < MAX_BLOCKS` held). -/
theorem chainLoop_dataPrompt_lt (dataF : Nat → CppString) (choiceF : Nat → Int) :
    ∀ (fuel k : Nat) (chain : List Block) (choice : Int) (n : Nat),
      Ev.dataPrompt n ∈ (chainLoop dataF choiceF fuel k chain choice).2 →
      n < MAX_BLOCKS := by
  intro fuel
  induction fuel with
  | zero =>
    intro k chain choice n h
    rw [chainLoop_zero] at h
    simp at h
  | succ fuel ih =>
    intro k chain choice n h
    rw [chainLoop_succ] at h
    by_cases hg : choice = yCode ∧ chain.length < MAX_BLOCKS
    · rw [if_pos hg] at h
      dsimp only at h
      simp only [List.mem_cons] at h
      rcases h with h1 | h2 | h3 | h4
      · injection h1 with hn
        exact hn ▸ hg.2
      · simp at h2
      · simp at h3
      · exact ih _ _ _ _ h4
    · rw [if_neg hg] at h
      simp at h

/-- A non-empty loop trace always ends with the continuation prompt: the
loop body asks `Add another block? (y/n): ` after every append, including
the one that fills the chain to capacity. -/
theorem chainLoop_trace_last (dataF : Nat → CppString) (choiceF : Nat → Int) :
    ∀ (fuel k : Nat) (chain : List Block) (choice : Int),
      (chainLoop dataF choiceF fuel k chain choice).2 = []
        ∨ (chainLoop dataF choiceF fuel k chain choice).2.getLast? = some Ev.contPrompt := by
  intro fuel
  induction fuel with
  | zero =>
    intro k chain choice
    left
    rw [chainLoop_zero]
  | succ fuel ih =>
    intro k chain choice
    rw [chainLoop_succ]
    by_cases hg : choice = yCode ∧ chain.length < MAX_BLOCKS
    · rw [if_pos hg]
      dsimp only
      right
      rcases ih (k + 1) (chain ++ [createBlock (dataF k) (lastHash chain)]) (choiceF k) with
        hnil | hlast
      · rw [hnil]
        simp
      · cases hrest : (chainLoop dataF choiceF fuel (k + 1)
            (chain ++ [createBlock (dataF k) (lastHash chain)]) (choiceF k)).2 with
        | nil =>
          rw [hrest] at hlast
          simp at hlast
        | cons r rs =>
          rw [hrest] at hlast
          rw [List.getLast?_cons_cons, List.getLast?_cons_cons, List.getLast?_cons_cons]
          exact hlast
    · rw [if_neg hg]
      left
      rfl

/-- An empty trace means the loop never ran: the chain is unchanged. -/
theorem chainLoop_trace_nil (dataF : Nat → CppString) (choiceF : Nat → Int)
    (fuel k : Nat) (chain : List Block) (choice : Int)
    (h : (chainLoop dataF choiceF fuel k chain choice).2 = []) :
    (chainLoop dataF choiceF fuel k chain choice).1 = chain := by
  cases fuel with
  | zero => rw [chainLoop_zero]
  | succ fuel =>
    rw [chainLoop_succ] at h ⊢
    by_cases hg : choice = yCode ∧ chain.length < MAX_BLOCKS
    · rw [if_pos hg] at h
      dsimp only at h
      exact absurd h (by simp)
    · rw [if_neg hg]

/-- `wrap32` only depends on the value modulo 2^32. -/
theorem wrap32_add_mul (a t : Int) : wrap32 (a + 4294967296 * t) = wrap32 a := by
  unfold wrap32
  omega

/-- Wrapping the left summand before adding does not change the wrapped sum. -/
theorem wrap32_left (a b : Int) : wrap32 (wrap32 a + b) = wrap32 (a + b) := by
  unfold wrap32
  omega

/-- Wrapping the right summand before adding does not change the wrapped sum. -/
theorem wrap32_right (a b : Int) : wrap32 (a + wrap32 b) = wrap32 (a + b) := by
  unfold wrap32
  omega

/-- The step-by-step wrapped accumulation equals the 32-bit wraparound of the
plain weighted sum. -/
theorem hashAccFrom_wrap (cs : CppString) :
    ∀ (h : Int) (pos : Nat),
      hashAccFrom (wrap32 h) pos cs = wrap32 (h + weightedSum pos cs) := by
  induction cs with
  | nil =>
    intro h pos
    simp [hashAccFrom, weightedSum]
  | cons c rest ih =>
    intro h pos
    show hashAccFrom (wrap32 (wrap32 h + wrap32 (c * (pos : Int)))) (pos + 1) rest = _
    rw [wrap32_left, wrap32_right, ih (h + c * (pos : Int)) (pos + 1)]
    rw [show weightedSum pos (c :: rest) = c * (pos : Int) + weightedSum (pos + 1) rest
      from rfl]
    rw [add_assoc]

/-- The accumulator of `simpleHash` is the 32-bit signed wraparound of the
1-indexed position-weighted character sum. -/
theorem hashAcc_eq (input : CppString) : hashAcc input = wrap32 (weightedSum 1 input) := by
  have h0 : (0 : Int) = wrap32 0 := by decide
  unfold hashAcc
  rw [h0, hashAccFrom_wrap input 0 1, zero_add]

/-- C1: chain linkage invariant — in every chain produced by the interactive
loop, for every index `i ≥ 1`, the block at position `i` has `prevHash`
equal to the digest of the block at position `i - 1`. -/
theorem claim_C1_chain_linkage (dataF : Nat → CppString) (choiceF : Nat → Int)
    (i : Nat) (h1 : 1 ≤ i) (h2 : i < (buildChain dataF choiceF).length) :
    ((buildChain dataF choiceF).get ⟨i, h2⟩).prevHash
      = ((buildChain dataF choiceF).get ⟨i - 1, by omega⟩).hash := by
  have hch : List.Chain' linkedTo (buildChain dataF choiceF) := by
    unfold buildChain buildRun
    exact chainLoop_linked dataF choiceF MAX_BLOCKS 0 [genesisBlock] yCode
      (List.chain'_singleton _)
  have hg := List.chain'_iff_get.mp hch (i - 1) (by omega)
  unfold linkedTo at hg
  have hi : i - 1 + 1 = i := by omega
  simp only [hi] at hg
  exact hg

/-- Witness for C1: in the run that adds one block and declines, block 1 is
linked to block 0. -/
theorem claim_C1_chain_linkage_witness :
    ((buildChain (fun _ => []) (fun _ => 110)).get ⟨1, by decide⟩).prevHash
      = ((buildChain (fun _ => []) (fun _ => 110)).get ⟨0, by decide⟩).hash :=
  claim_C1_chain_linkage (fun _ => []) (fun _ => 110) 1 (by decide) (by decide)

/-- C2: for every input, the Hasher's accumulator is the 32-bit signed
wraparound of the sum over 1-indexed positions of `code * position`, and
the digest is exactly the spec's rendering — for `i` in `0..7`, position
`i` holds `(accumulator >> (i*4)) & 0xF` mapped to `'0'`-`'9'` /
`'A'`-`'F'` (least-significant nibble first). -/
theorem claim_C2_hasher_algorithm (input : CppString) :
    hashAcc input = wrap32 (weightedSum 1 input)
    ∧ simpleHash input = hasherSpec input := by
  refine ⟨hashAcc_eq input, ?_⟩
  unfold simpleHash hasherSpec
  rw [hashAcc_eq input]
  rfl

/-- C3 counterexample: the accumulator for `"Hello"` is 1585, but
1585 = 0x631, so the digest is `"13600000"`, not the claimed `"12600000"`. -/
theorem claim_C3_counterexample :
    hashAcc (ascii "Hello") = 1585
    ∧ simpleHash (ascii "Hello") ≠ ascii "12600000" := by decide

/-- C3 (amended): hashing `"Hello"` (content `"Hello"`, empty predecessor
digest) yields accumulator 1585 and digest `"13600000"`. -/
theorem claim_C3_hello_digest :
    hashAcc (ascii "Hello") = 1585
    ∧ simpleHash (ascii "Hello") = ascii "13600000" := by decide

/-- C4: `createBlock` stores the given content and predecessor digest
unchanged and sets the digest to the Hasher of their direct concatenation;
it is total (any strings, including empty, are accepted). -/
theorem claim_C4_createBlock (data prevHash : CppString) :
    (createBlock data prevHash).data = data
    ∧ (createBlock data prevHash).prevHash = prevHash
    ∧ (createBlock data prevHash).hash = simpleHash (data ++ prevHash) :=
  ⟨rfl, rfl, rfl⟩

/-- C5: for every input stream, the chain produced by the interactive loop
has at most 10 blocks, and the loop terminates by its guard — giving it
any amount of extra fuel beyond `MAX_BLOCKS` iterations changes nothing. -/
theorem claim_C5_capacity_bound (dataF : Nat → CppString) (choiceF : Nat → Int) :
    (buildChain dataF choiceF).length ≤ 10
    ∧ ∀ extra : Nat,
        chainLoop dataF choiceF (MAX_BLOCKS + extra) 0 [genesisBlock] yCode
          = buildRun dataF choiceF := by
  constructor
  · have h := chainLoop_length_le dataF choiceF MAX_BLOCKS 0 [genesisBlock] yCode
      (by simp [MAX_BLOCKS])
    unfold buildChain buildRun
    exact h
  · intro extra
    unfold buildRun
    exact chainLoop_stable dataF choiceF MAX_BLOCKS extra 0 [genesisBlock] yCode
      (by simp [MAX_BLOCKS])

/-- C6 counterexample: declining at the first continuation opportunity does
not leave the chain at length 1 — the loop body always runs once before
asking, so the chain has 2 blocks. -/
theorem claim_C6_counterexample :
    (buildChain (fun _ => []) (fun _ => 110)).length = 2 ∧ (2 : Nat) ≠ 1 := by decide

/-- C6 (amended): block 0 of every produced chain is the genesis block,
with content `"Genesis Block"` and predecessor digest `"00000000"`,
created before any user interaction; declining at the first continuation
opportunity leaves the chain at length exactly 2 (genesis plus the one
user block that the loop unconditionally adds first). -/
theorem claim_C6_genesis (dataF : Nat → CppString) (choiceF : Nat → Int) :
    (buildChain dataF choiceF).head? = some genesisBlock
    ∧ genesisBlock.data = ascii "Genesis Block"
    ∧ genesisBlock.prevHash = ascii "00000000"
    ∧ (choiceF 0 ≠ yCode → (buildChain dataF choiceF).length = 2) := by
  refine ⟨?_, rfl, rfl, ?_⟩
  · obtain ⟨s, hs⟩ := chainLoop_extends dataF choiceF MAX_BLOCKS 0 [genesisBlock] yCode
    unfold buildChain buildRun
    rw [hs]
    simp
  · intro hn
    unfold buildChain buildRun
    show (chainLoop dataF choiceF (9 + 1) 0 [genesisBlock] yCode).1.length = 2
    rw [chainLoop_succ, if_pos ⟨rfl, by simp [MAX_BLOCKS]⟩]
    dsimp only
    show (chainLoop dataF choiceF (8 + 1) 1
        ([genesisBlock] ++ [createBlock (dataF 0) (lastHash [genesisBlock])])
        (choiceF 0)).1.length = 2
    rw [chainLoop_succ, if_neg]
    · rfl
    · intro hc
      exact hn hc.1

/-- Witness for C6: with `'n'` (code 110) as every continuation answer the
chain ends at length 2. -/
theorem claim_C6_genesis_witness :
    (110 : Int) ≠ yCode ∧ (buildChain (fun _ => []) (fun _ => 110)).length = 2 :=
  ⟨by decide, (claim_C6_genesis (fun _ => []) (fun _ => 110)).2.2.2 (by decide)⟩

/-- C7 counterexample: in the run where the user always answers `'y'`, the
chain reaches exactly 10 blocks and the very last console event — after
the capacity-filling block was appended — is the continuation prompt, so a
further prompt IS shown after capacity is reached. -/
theorem claim_C7_counterexample :
    (buildChain (fun _ => []) (fun _ => 121)).length = 10
    ∧ (buildTrace (fun _ => []) (fun _ => 121)).getLast? = some Ev.contPrompt := by decide

/-- C7 (amended): the chain never exceeds 10 blocks and no data prompt is
shown for a block number at or beyond capacity (so once the 10th block is
appended the user is never asked for more data); however the iteration
that fills the chain still shows one final continuation prompt, which is
the last event of the run (its answer is read and discarded). -/
theorem claim_C7_capacity_stop (dataF : Nat → CppString) (choiceF : Nat → Int) :
    (buildChain dataF choiceF).length ≤ 10
    ∧ (∀ n, Ev.dataPrompt n ∈ buildTrace dataF choiceF → n < 10)
    ∧ ((buildChain dataF choiceF).length = 10 →
        (buildTrace dataF choiceF).getLast? = some Ev.contPrompt) := by
  refine ⟨?_, ?_, ?_⟩
  · have h := chainLoop_length_le dataF choiceF MAX_BLOCKS 0 [genesisBlock] yCode
      (by simp [MAX_BLOCKS])
    unfold buildChain buildRun
    exact h
  · intro n hn
    unfold buildTrace buildRun at hn
    exact chainLoop_dataPrompt_lt dataF choiceF MAX_BLOCKS 0 [genesisBlock] yCode n hn
  · intro hlen
    rcases chainLoop_trace_last dataF choiceF MAX_BLOCKS 0 [genesisBlock] yCode with
      hnil | hl
    · exfalso
      have hc := chainLoop_trace_nil dataF choiceF MAX_BLOCKS 0 [genesisBlock] yCode hnil
      unfold buildChain buildRun at hlen
      rw [hc] at hlen
      simp at hlen
    · unfold buildTrace buildRun
      exact hl

/-- Witness for C7: the all-`'y'` run has a data prompt numbered 1 (hence
below 10) and, being full, ends with the continuation prompt. -/
theorem claim_C7_capacity_stop_witness :
    (1 : Nat) < 10
    ∧ (buildTrace (fun _ => []) (fun _ => 121)).getLast? = some Ev.contPrompt :=
  ⟨(claim_C7_capacity_stop (fun _ => []) (fun _ => 121)).2.1 1 (by decide),
   (claim_C7_capacity_stop (fun _ => []) (fun _ => 121)).2.2 (by decide)⟩

/-- C8 counterexample: the first data prompt of a run carries the number 1
(the current block count), not 2 (the 1-based index of the next block to
create), and its console text — which also begins with a newline — is not
`"Enter data for block 2: "`. -/
theorem claim_C8_counterexample :
    promptNums (buildTrace (fun _ => []) (fun _ => 110)) = [1]
    ∧ dataPromptText 1 ≠ "Enter data for block 2: " := by decide

/-- C8 (amended): the data prompt of each iteration is
`"\nEnter data for block <N>: "` where `N` is the current block count —
equivalently the 0-based index of the block about to be created — so a run
whose final chain has `L` blocks shows exactly the prompts numbered
`1, 2, ..., L - 1`, the first user block being announced with `N = 1`. -/
theorem claim_C8_prompt_numbers (dataF : Nat → CppString) (choiceF : Nat → Int) :
    promptNums (buildTrace dataF choiceF)
      = countUp 1 ((buildChain dataF choiceF).length - 1) := by
  unfold buildTrace buildChain buildRun
  have h := chainLoop_promptNums dataF choiceF MAX_BLOCKS 0 [genesisBlock] yCode
  simpa using h

/-- C9: for every input the Hasher returns exactly 8 characters, each one
of `'0'`-`'9'` (codes 48-57) or `'A'`-`'F'` (codes 65-70). -/
theorem claim_C9_digest_shape (input : CppString) :
    (simpleHash input).length = 8
    ∧ (simpleHash input).all isHexDigitCode = true := by
  constructor
  · simp [simpleHash]
  · rw [List.all_eq_true]
    intro c hc
    simp only [simpleHash, List.mem_map, List.mem_range] at hc
    obtain ⟨i, -, rfl⟩ := hc
    unfold nibbleVal hexCharCode isHexDigitCode
    by_cases hv : Int.fdiv (hashAcc input) (2 ^ (4 * i)) % 16 < 10
    · rw [if_pos hv]
      simp only [Bool.or_eq_true, Bool.and_eq_true, decide_eq_true_eq]
      left
      omega
    · rw [if_neg hv]
      simp only [Bool.or_eq_true, Bool.and_eq_true, decide_eq_true_eq]
      right
      omega

/-- C10: the Hasher maps the empty string to `"00000000"`, which is the
sentinel used as the genesis block's predecessor digest, so the genesis
block's `prevHash` equals the digest of the empty string. -/
theorem claim_C10_empty_digest :
    simpleHash [] = ascii "00000000"
    ∧ genesisBlock.prevHash = simpleHash [] := by decide

end SimpleBlockchainApp
